import Mathlib

/-!
Verification of the 2D smooth-noise engine (`Src/perlin.cpp`, `Src/Helpers.cpp`,
`Src/Defines.h`) of the smooth2dnoiseviewer repository.

Modelling conventions:
* C++ `float` arithmetic is modelled as exact rational arithmetic (`ℚ`).
  All float operations in the engine are `+ - * /`, comparisons, `floorf` and
  `cosf`; rounding is not modelled.  A float division whose denominator is
  exactly `0` produces a non-finite IEEE value (`NaN`/`±inf`); the model makes
  the one division in `generate` return `Option ℚ`, with `none` standing for
  the non-finite result.
* `size_t`/`uint64_t` arithmetic is modelled on `ℕ` with an explicit `% 2 ^ 64`
  where C++ wraps (the products and sums of `hash2`, the shift of `pairstd`).  Sums such
  as `hash(x) + y` that are immediately masked with `m_nMask < 2 ^ 64` are kept
  as plain `ℕ` sums, which gives the same masked value.
* `std::default_random_engine` is implementation-defined; it is modelled as the
  minstd linear congruential generator (the libstdc++ default), state in `ℕ`.
  The claims proved below depend only on the generator being a deterministic
  function of its seed and on the ranges of the distribution wrappers.
* `cosf` (C library, not repository code) is modelled as a clamped Taylor
  polynomial; the only fact used is that its values lie in `[-1, 1]`.
* `std::hash<size_t>` is modelled as the identity (the libstdc++/MSVC
  implementation); only the final masking matters for the claims.
-/

namespace SmoothNoise

/-- Noise kind, from `Defines.h` (`enum class eNoise`). -/
inductive eNoise
  | None
  | Perlin
  | Value
deriving DecidableEq

/-- Hash function kind, from `Defines.h` (`enum class eHash`). -/
inductive eHash
  | Permutation
  | LinearCongruential
  | Std
deriving DecidableEq

/-- Probability distribution kind, from `Defines.h` (`enum class eDistribution`). -/
inductive eDistribution
  | Uniform
  | Maximal
  | Cosine
  | Normal
  | Exponential
  | Midpoint
deriving DecidableEq

/-- Spline kind, from `Defines.h` (`enum class eSpline`). -/
inductive eSpline
  | None
  | Cubic
  | Quintic
deriving DecidableEq

/-- Cubic spline `3t^2 - 2t^3`, from `Helpers.cpp` (`spline3`). -/
def spline3 (t : ℚ) : ℚ := t * t * (3 - 2 * t)

/-- Quintic spline `10t^3 - 15t^4 + 6t^5`, from `Helpers.cpp` (`spline5`). -/
def spline5 (t : ℚ) : ℚ := t * t * t * (10 + 3 * t * (2 * t - 5))

/-- Linear interpolation `a + t(b - a)`, from `Helpers.cpp` (`lerp`). -/
def lerp (t a b : ℚ) : ℚ := a + t * (b - a)

/-- Clamp `max(a, min(x, b))`, from `Helpers.cpp` (`clamp`). -/
def clamp (a x b : ℚ) : ℚ := max a (min x b)

/-- Power-of-two test `n != 0 && (n & (n-1)) == 0`, from `Helpers.cpp` (`isPowerOf2`). -/
def isPowerOf2 (n : ℕ) : Bool := n != 0 && (n &&& (n - 1)) == 0

/-- Modulus of the modelled `std::default_random_engine` (minstd). -/
def prngM : ℕ := 2147483647

/-- One step of the modelled `std::default_random_engine`. -/
def prngNext (s : ℕ) : ℕ := (16807 * s) % prngM

/-- Modelled `std::default_random_engine::seed`. -/
def prngSeed (seed : ℕ) : ℕ := if seed % prngM = 0 then 1 else seed % prngM

/-- A draw in `[0, 1)` from the modelled engine state. -/
def unitDraw (s : ℕ) : ℚ := (prngNext s : ℚ) / (prngM : ℚ)

/-- Modelled `std::uniform_real_distribution(a, b)` applied to the engine:
returns a value in `[a, b)` and the advanced engine state. -/
def uniformReal (a b : ℚ) (s : ℕ) : ℚ × ℕ := (a + (b - a) * unitDraw s, prngNext s)

/-- Modelled `std::uniform_int_distribution(lo, hi)` applied to the engine:
returns a value in `[lo, hi]` (for `lo ≤ hi`) and the advanced engine state. -/
def uniformNat (lo hi : ℕ) (s : ℕ) : ℕ × ℕ := (lo + prngNext s % (hi - lo + 1), prngNext s)

/-- Modelled `std::normal_distribution(500, 200)` draw; the caller clamps the
value, so no property of the draw itself is used by any claim. -/
def normalDraw (s : ℕ) : ℚ × ℕ := ((prngNext s : ℚ), prngNext s)

/-- Modelled `std::exponential_distribution(4)` draw; the caller clamps the
value, so no property of the draw itself is used by any claim. -/
def expDraw (s : ℕ) : ℚ × ℕ := ((prngNext s : ℚ) / (prngM : ℚ), prngNext s)

/-- Modelled `std::hash<size_t>` (identity, as in libstdc++/MSVC). -/
def stdHash (x : ℕ) : ℕ := x

/-- The float value of `M_PI` (`Defines.h` constant `PI`), an exact dyadic. -/
def PI : ℚ := 13176795 / 4194304

/-- Modelled C library `cosf`: a clamped Taylor polynomial.  Only the range
fact `-1 ≤ cosf x ≤ 1` is used by the claims. -/
def cosf (x : ℚ) : ℚ := clamp (-1) (1 - x ^ 2 / 2 + x ^ 4 / 24) 1

/-- Conversion of a signed integer to `size_t`, with 64-bit wraparound
(the C++ cast `(size_t)` of a negative float value is UB; the model wraps). -/
def toSizeT (z : ℤ) : ℕ := (z % (2 ^ 64 : ℤ)).toNat

/-- `m_nDefTableSize` (const member, `perlin.h`). -/
def m_nDefTableSize : ℕ := 256

/-- `m_nMinTableSize` (const member, `perlin.h`). -/
def m_nMinTableSize : ℕ := 16

/-- `m_nMaxTableSize` (const member, `perlin.h`). -/
def m_nMaxTableSize : ℕ := 1024

/-- The noise engine state: the data members of class `CPerlinNoise2D`
(`perlin.h`).  The owned C arrays `m_nPerm`/`m_fTable` are modelled as lists. -/
@[ext] structure CPerlinNoise2D where
  m_eHash : eHash
  m_eSpline : eSpline
  m_eDistribution : eDistribution
  m_nPerm : List ℕ
  m_fTable : List ℚ
  m_stdRandom : ℕ
  m_nSeed : ℕ
  m_nSize : ℕ
  m_nMask : ℕ

namespace CPerlinNoise2D

/-- The Perlin hash `m_nPerm[x & m_nMask]`, from `perlin.cpp` line 367. -/
def hash (st : CPerlinNoise2D) (x : ℕ) : ℕ := st.m_nPerm.getD (x &&& st.m_nMask) 0

/-- The Perlin pairing function `hash(x) + y`, from `perlin.cpp` line 346. -/
def pair (st : CPerlinNoise2D) (x y : ℕ) : ℕ := hash st x + y

/-- Pairing via `std::hash`: `(std::hash(x) << 1) ^ std::hash(y)`,
from `perlin.cpp` line 358, with the 64-bit wrap of the shift explicit. -/
def pairstd (_st : CPerlinNoise2D) (x y : ℕ) : ℕ :=
  ((stdHash x <<< 1) % 2 ^ 64) ^^^ stdHash y

/-- Hash via `std::hash`: `std::hash(x) & m_nMask`, from `perlin.cpp` line 377. -/
def hashstd (st : CPerlinNoise2D) (x : ℕ) : ℕ := stdHash x &&& st.m_nMask

/-- The 2D linear congruential hash, from `perlin.cpp` lines 389-397.
The `uint64_t` products and sum wrap modulo `2 ^ 64`. -/
def hash2 (st : CPerlinNoise2D) (x y : ℕ) : ℕ :=
  let p0 : ℕ := 11903454645187951493
  let p1 : ℕ := 2078231835154824277
  let p2 : ℕ := 5719147207009855033
  let h : ℕ := ((p0 * x + p1 * y) % 2 ^ 64) % p2
  (h >>> 8) &&& st.m_nMask

/-- Hash values at the four grid corners in row-major order
`[c0, c1, c2, c3]`, from `perlin.cpp` lines 404-421 (`HashCorners`). -/
def HashCorners (st : CPerlinNoise2D) (x y : ℕ) : List ℕ :=
  match st.m_eHash with
  | eHash.Permutation =>
      [hash st (pair st x y), hash st (pair st (x + 1) y),
       hash st (pair st x (y + 1)), hash st (pair st (x + 1) (y + 1))]
  | eHash.LinearCongruential =>
      [hash2 st x y, hash2 st (x + 1) y,
       hash2 st x (y + 1), hash2 st (x + 1) (y + 1)]
  | eHash.Std =>
      [hashstd st (pairstd st x y), hashstd st (pairstd st (x + 1) y),
       hashstd st (pairstd st x (y + 1)), hashstd st (pairstd st (x + 1) (y + 1))]

/-- The spline selector, from `perlin.cpp` lines 325-339 (`spline`). -/
def spline (st : CPerlinNoise2D) (x : ℚ) : ℚ :=
  match st.m_eSpline with
  | eSpline.None => x
  | eSpline.Cubic => spline3 x
  | eSpline.Quintic => spline5 x

/-- Gradient/value evaluation at a corner, from `perlin.cpp` lines 434-454
(`z`).  For `eNoise::None` the `switch` leaves the initial `result = 0`. -/
def z (st : CPerlinNoise2D) (h : ℕ) (x y : ℚ) (t : eNoise) : ℚ :=
  match t with
  | eNoise.Perlin => x * st.m_fTable.getD h 0 + y * st.m_fTable.getD (hash st h) 0
  | eNoise.Value => st.m_fTable.getD h 0
  | eNoise.None => 0

/-- Interpolation along the X axis, from `perlin.cpp` lines 465-490 (`Lerp`).
The C++ function receives a pointer to two corner hashes; the model passes the
two corner hashes `c0`, `c1` directly.  The `default` branch returns `0`. -/
def Lerp (st : CPerlinNoise2D) (sX fX fY : ℚ) (c0 c1 : ℕ) (t : eNoise) : ℚ :=
  let result := lerp sX (z st c0 fX fY t) (z st c1 (fX - 1) fY t)
  match t with
  | eNoise.Perlin => result
  | eNoise.Value => result
  | eNoise.None => 0

/-- A single octave of noise, from `perlin.cpp` lines 505-532 (`noise`). -/
def noise (st : CPerlinNoise2D) (x y : ℚ) (t : eNoise) : ℚ :=
  let nX : ℕ := toSizeT ⌊x⌋
  let nY : ℕ := toSizeT ⌊y⌋
  let fX : ℚ := x - (⌊x⌋ : ℚ)
  let fY : ℚ := y - (⌊y⌋ : ℚ)
  let sX : ℚ := spline st fX
  let sY : ℚ := spline st fY
  let c : List ℕ := HashCorners st nX nY
  let a : ℚ := Lerp st sX fX fY (c.getD 0 0) (c.getD 1 0) t
  let b : ℚ := Lerp st sX fX (fY - 1) (c.getD 2 0) (c.getD 3 0) t
  lerp sY a b

/-- The octave loop of `generate` (`perlin.cpp` lines 556-560): returns the
final `(sum, amplitude)` pair. -/
def genLoop (st : CPerlinNoise2D) (t : eNoise) (alpha beta : ℚ) :
    ℕ → ℚ → ℚ → ℚ → ℚ → ℚ × ℚ
  | 0, _, _, sum, amplitude => (sum, amplitude)
  | n + 1, x, y, sum, amplitude =>
      genLoop st t alpha beta n (x * beta) (y * beta)
        (sum + amplitude * noise st x y t) (amplitude * alpha)

/-- Multi-octave noise, from `perlin.cpp` lines 547-568 (`generate`).
The C++ defaults are `alpha = 0.5`, `beta = 2.0`.  The final division
`(1 - alpha) * sum / (1 - amplitude)` is a float division; when the
denominator is exactly `0` (which happens for `n = 0`, where
`amplitude = 1`), the IEEE result is non-finite (`0.0f/0.0f = NaN`),
modelled here as `none`. -/
def generate (st : CPerlinNoise2D) (x y : ℚ) (t : eNoise) (n : ℕ)
    (alpha beta : ℚ) : Option ℚ :=
  let p := genLoop st t alpha beta n x y 0 1
  if 1 - p.2 = 0 then none
  else
    let result := (1 - alpha) * p.1 / (1 - p.2)
    some (if t = eNoise.Perlin then result * (4 / 3) else result)

end CPerlinNoise2D

/-- The `std::swap(m_nPerm[i], m_nPerm[j])` of the Fisher-Yates loop
(`perlin.cpp` line 94).  Out-of-range indices leave the list unchanged
(the C++ loop only ever uses in-range indices). -/
def swapEntries (l : List ℕ) (i j : ℕ) : List ℕ :=
  if i < l.length ∧ j < l.length then
    (l.set i (l.getD j 0)).set j (l.getD i 0)
  else l

/-- One iteration of the shuffle loop of `RandomizePermutation`
(`perlin.cpp` lines 92-95): draw `j` uniformly from `[i, n-1]` and swap. -/
def fisherStep (n : ℕ) (pg : List ℕ × ℕ) (i : ℕ) : List ℕ × ℕ :=
  let d := uniformNat i (n - 1) pg.2
  (swapEntries pg.1 i d.1, d.2)

/-- A table-filling loop: `n` entries, each produced by one draw `f` from the
PRNG, in index order.  Shared shape of the `RandomizeTable*` loops. -/
def fillWith (f : ℕ → ℚ × ℕ) (g : ℕ) : ℕ → List ℚ × ℕ
  | 0 => ([], g)
  | n + 1 =>
      let d := f g
      let rest := fillWith f d.2 n
      (d.1 :: rest.1, rest.2)

/-- `RandomizeTableUniform` (`perlin.cpp` lines 152-159): entries drawn from
`uniform_real_distribution(-1, 1)`. -/
def RandomizeTableUniform (g n : ℕ) : List ℚ × ℕ :=
  fillWith (uniformReal (-1) 1) g n

/-- `RandomizeTableMaximal` (`perlin.cpp` lines 166-173): each entry is `1`
when a `uniform_real_distribution(-1, 1)` draw is positive, else `-1`. -/
def RandomizeTableMaximal (g n : ℕ) : List ℚ × ℕ :=
  fillWith (fun s =>
    let d := uniformReal (-1) 1 s
    (if d.1 > 0 then 1 else -1, d.2)) g n

/-- `RandomizeTableCos` (`perlin.cpp` lines 194-201): entries
`cosf(PI * u)` with `u` drawn from `uniform_real_distribution(0, 1)`. -/
def RandomizeTableCos (g n : ℕ) : List ℚ × ℕ :=
  fillWith (fun s =>
    let d := uniformReal 0 1 s
    (cosf (PI * d.1), d.2)) g n

/-- `RandomizeTableNormal` (`perlin.cpp` lines 179-186): entries
`2 * clamp(0, draw/1000, 1) - 1` with `draw` from `normal_distribution(500, 200)`. -/
def RandomizeTableNormal (g n : ℕ) : List ℚ × ℕ :=
  fillWith (fun s =>
    let d := normalDraw s
    (2 * clamp 0 (d.1 / 1000) 1 - 1, d.2)) g n

/-- `RandomizeTableExp` (`perlin.cpp` lines 208-218): the first half of the
table gets `clamp(0, draw, 1)`, the second half `-clamp(0, draw, 1)`, with
draws from `exponential_distribution(4)`. -/
def RandomizeTableExp (g n : ℕ) : List ℚ × ℕ :=
  let pos := fillWith (fun s =>
    let d := expDraw s
    (clamp 0 d.1 1, d.2)) g (n / 2)
  let neg := fillWith (fun s =>
    let d := expDraw s
    (-clamp 0 d.1 1, d.2)) pos.2 (n - n / 2)
  (pos.1 ++ neg.1, neg.2)

/-- The recursive midpoint-displacement fill
`RandomizeTableMidpoint(size_t i, size_t j, float alpha)`
(`perlin.cpp` lines 116-135).  The C++ recursion terminates because `j - i`
shrinks; the model makes that measure an explicit structural `fuel` argument
(callers pass `fuel ≥ j - i`, so the `fuel = 0` base case is never the one
that stops a reached recursive call). -/
def RandomizeTableMidpoint (fuel : ℕ) (t : List ℚ) (g : ℕ) (i j : ℕ) (alpha : ℚ) :
    List ℚ × ℕ :=
  match fuel with
  | 0 => (t, g)
  | fuel + 1 =>
    if j > i + 1 then
      let mid := (i + j) / 2
      let fMean := (t.getD i 0 + t.getD j 0) / 2
      let d := uniformReal (-1) 1 g
      let t1 := t.set mid (clamp (-1) (fMean + alpha * d.1) 1)
      let r1 := RandomizeTableMidpoint fuel t1 d.2 i mid (alpha * (1/2))
      RandomizeTableMidpoint fuel r1.1 r1.2 mid j (alpha * (1/2))
    else (t, g)

/-- The call tree of the recursive `RandomizeTableMidpoint(i, j, alpha)`:
the list of `(i, j, alpha)` argument triples of every reached call, in call
order, given enough `fuel` (callers pass `fuel ≥ j - i`). -/
def midpointCalls (fuel : ℕ) (i j : ℕ) (alpha : ℚ) : List (ℕ × ℕ × ℚ) :=
  match fuel with
  | 0 => []
  | fuel + 1 =>
    (i, j, alpha) ::
      (if j > i + 1 then
        midpointCalls fuel i ((i + j) / 2) (alpha * (1/2)) ++
          midpointCalls fuel ((i + j) / 2) j (alpha * (1/2))
      else [])

namespace CPerlinNoise2D

/-- `RandomizePermutation` (`perlin.cpp` lines 86-96): identity permutation,
reseed the PRNG from `m_nSeed`, then Fisher-Yates shuffle. -/
def RandomizePermutation (st : CPerlinNoise2D) : CPerlinNoise2D :=
  let g0 := prngSeed st.m_nSeed
  let p := (List.range st.m_nSize).foldl (fisherStep st.m_nSize) (List.range st.m_nSize, g0)
  { st with m_nPerm := p.1, m_stdRandom := p.2 }

/-- `RandomizeTable(eDistribution)` (`perlin.cpp` lines 227-239): reseed the
PRNG from `m_nSeed`, record the distribution, dispatch to the filler.  For
`Midpoint`, the public `RandomizeTableMidpoint()` overload
(`perlin.cpp` lines 141-146) first sets `m_fTable[0] = 1` and
`m_fTable[m_nSize - 1] = -1`, then starts the recursion on
`(0, m_nSize - 1, 0.5)`. -/
def RandomizeTable (st : CPerlinNoise2D) (d : eDistribution) : CPerlinNoise2D :=
  let g0 := prngSeed st.m_nSeed
  match d with
  | eDistribution.Uniform =>
      let r := RandomizeTableUniform g0 st.m_nSize
      { st with m_eDistribution := d, m_fTable := r.1, m_stdRandom := r.2 }
  | eDistribution.Maximal =>
      let r := RandomizeTableMaximal g0 st.m_nSize
      { st with m_eDistribution := d, m_fTable := r.1, m_stdRandom := r.2 }
  | eDistribution.Cosine =>
      let r := RandomizeTableCos g0 st.m_nSize
      { st with m_eDistribution := d, m_fTable := r.1, m_stdRandom := r.2 }
  | eDistribution.Normal =>
      let r := RandomizeTableNormal g0 st.m_nSize
      { st with m_eDistribution := d, m_fTable := r.1, m_stdRandom := r.2 }
  | eDistribution.Exponential =>
      let r := RandomizeTableExp g0 st.m_nSize
      { st with m_eDistribution := d, m_fTable := r.1, m_stdRandom := r.2 }
  | eDistribution.Midpoint =>
      let t0 := (st.m_fTable.set 0 1).set (st.m_nSize - 1) (-1)
      let r := RandomizeTableMidpoint st.m_nSize t0 g0 0 (st.m_nSize - 1) (1/2)
      { st with m_eDistribution := d, m_fTable := r.1, m_stdRandom := r.2 }

/-- The C++ `Initialize` (`perlin.cpp` lines 58-68): set the mask, allocate
fresh arrays (modelled as zero lists; C++ leaves them uninitialized and the
fillers overwrite them before any read), then `RandomizeTable` with the
current distribution and `RandomizePermutation`. -/
def InitTables (st : CPerlinNoise2D) : CPerlinNoise2D :=
  let st1 : CPerlinNoise2D :=
    { st with m_nMask := st.m_nSize - 1,
              m_nPerm := List.replicate st.m_nSize 0,
              m_fTable := List.replicate st.m_nSize 0 }
  RandomizePermutation (RandomizeTable st1 st1.m_eDistribution)

/-- `DoubleTableSize` (`perlin.cpp` lines 245-256): below the maximum size,
double and re-initialize, returning `true`; otherwise do nothing and return
`false`. -/
def DoubleTableSize (st : CPerlinNoise2D) : Bool × CPerlinNoise2D :=
  if st.m_nSize < m_nMaxTableSize then
    (true, InitTables { st with m_nSize := st.m_nSize * 2 })
  else (false, st)

/-- `HalveTableSize` (`perlin.cpp` lines 262-273): above the minimum size,
halve and re-initialize, returning `true`; otherwise do nothing and return
`false`. -/
def HalveTableSize (st : CPerlinNoise2D) : Bool × CPerlinNoise2D :=
  if st.m_nSize > m_nMinTableSize then
    (true, InitTables { st with m_nSize := st.m_nSize / 2 })
  else (false, st)

/-- Method view of `generate`: the C++ member function is `const` and its
body assigns no data member, so the post-call state is the pre-call state. -/
def generateM (st : CPerlinNoise2D) (x y : ℚ) (t : eNoise) (n : ℕ)
    (alpha beta : ℚ) : Option ℚ × CPerlinNoise2D :=
  (generate st x y t n alpha beta, st)

/-- Method view of `noise` (a `const` member function). -/
def noiseM (st : CPerlinNoise2D) (x y : ℚ) (t : eNoise) : ℚ × CPerlinNoise2D :=
  (noise st x y t, st)

/-- Method view of `HashCorners` (a `const` member function). -/
def HashCornersM (st : CPerlinNoise2D) (x y : ℕ) : List ℕ × CPerlinNoise2D :=
  (HashCorners st x y, st)

/-- Method view of `hash` (a `const` member function). -/
def hashM (st : CPerlinNoise2D) (x : ℕ) : ℕ × CPerlinNoise2D := (hash st x, st)

/-- Method view of `hash2` (a `const` member function). -/
def hash2M (st : CPerlinNoise2D) (x y : ℕ) : ℕ × CPerlinNoise2D := (hash2 st x y, st)

/-- Method view of `hashstd` (a `const` member function). -/
def hashstdM (st : CPerlinNoise2D) (x : ℕ) : ℕ × CPerlinNoise2D := (hashstd st x, st)

/-- Method view of `pair` (a `const` member function). -/
def pairM (st : CPerlinNoise2D) (x y : ℕ) : ℕ × CPerlinNoise2D := (pair st x y, st)

/-- Method view of `pairstd` (a `const` member function). -/
def pairstdM (st : CPerlinNoise2D) (x y : ℕ) : ℕ × CPerlinNoise2D := (pairstd st x y, st)

/-- Method view of `spline` (a `const` member function). -/
def splineM (st : CPerlinNoise2D) (x : ℚ) : ℚ × CPerlinNoise2D := (spline st x, st)

/-- Method view of `z` (a `const` member function). -/
def zM (st : CPerlinNoise2D) (h : ℕ) (x y : ℚ) (t : eNoise) : ℚ × CPerlinNoise2D :=
  (z st h x y t, st)

/-- Method view of `Lerp` (a `const` member function). -/
def LerpM (st : CPerlinNoise2D) (sX fX fY : ℚ) (c0 c1 : ℕ) (t : eNoise) :
    ℚ × CPerlinNoise2D :=
  (Lerp st sX fX fY c0 c1 t, st)

end CPerlinNoise2D

/-- A concrete engine state with the minimum table size 16.  Its permutation
is a bijection on `{0, …, 15}`, its mask is `size - 1`, and its table entries
all lie in `{-1, 1}` (exactly the values the `Maximal` distribution filler
produces), so it satisfies every invariant the specification places on the
engine data. -/
def E16C : CPerlinNoise2D where
  m_eHash := eHash.Permutation
  m_eSpline := eSpline.Cubic
  m_eDistribution := eDistribution.Uniform
  m_nPerm := [0, 2, 4, 8, 6, 1, 3, 5, 10, 7, 9, 11, 12, 13, 14, 15]
  m_fTable := [1, 1, 1, 1, -1, 1, 1, 1, -1, 1, -1, 1, 1, 1, 1, 1]
  m_stdRandom := 0
  m_nSeed := 0
  m_nSize := 16
  m_nMask := 15

/-- A small engine state (table size 4) used to evaluate the shuffle and the
fillers on concrete inputs. -/
def E4 : CPerlinNoise2D :=
  { E16C with m_nSize := 4, m_nMask := 3, m_nPerm := [0, 1, 2, 3],
              m_fTable := [0, 0, 0, 0], m_nSeed := 5 }

/-- A second size-4 engine with the same size, seed and selectors as `E4`
but different table contents, permutation and PRNG state. -/
def E4b : CPerlinNoise2D :=
  { E4 with m_nPerm := [3, 2, 1, 0], m_fTable := [9, -7, 1/3, 2],
            m_stdRandom := 999 }

/-- An engine state at the default table size 256. -/
def E256 : CPerlinNoise2D :=
  { E16C with m_nSize := 256, m_nMask := 255, m_nPerm := List.range 256,
              m_fTable := List.replicate 256 0 }

/-- An engine state at the maximum table size 1024, reachable from the
default state by calling `DoubleTableSize` twice. -/
def E1024 : CPerlinNoise2D :=
  { E16C with m_nSize := 1024, m_nMask := 1023, m_nPerm := List.range 1024,
              m_fTable := List.replicate 1024 0 }

/-- Masking with `15` (the mask of a size-16 table) is reduction mod 16;
used to evaluate the bitwise `&` of the hash functions on literals. -/
theorem and_fifteen (x : ℕ) : x &&& 15 = x % 16 := by
  have h := Nat.and_pow_two_sub_one_eq_mod x 4
  norm_num at h
  exact h

open CPerlinNoise2D

/-! ### List access helpers -/

/-- Reading a position other than the one just written is reading the old list. -/
theorem getD_set_ne {α : Type} (l : List α) (d : α) (m k : ℕ) (v : α) (h : m ≠ k) :
    (l.set m v).getD k d = l.getD k d := by
  simp [List.getD_eq_getElem?_getD, List.getElem?_set_ne h]

/-- Reading the position just written returns the written value. -/
theorem getD_set_self {α : Type} (l : List α) (d : α) (m : ℕ) (v : α)
    (h : m < l.length) : (l.set m v).getD m d = v := by
  simp [List.getD_eq_getElem?_getD, List.getElem?_set_self h]

/-- An in-range `getD` is a member of the list. -/
theorem getD_mem_of_lt {α : Type} (d : α) :
    ∀ (l : List α) (i : ℕ), i < l.length → l.getD i d ∈ l
  | x :: _, 0, _ => List.mem_cons_self _ _
  | x :: t, i + 1, h =>
      List.mem_cons_of_mem x (getD_mem_of_lt d t i (by simpa using h))

/-- Every member of a list is an in-range `getD`. -/
theorem exists_getD_of_mem {α : Type} (d : α) :
    ∀ (l : List α) (v : α), v ∈ l → ∃ k, k < l.length ∧ l.getD k d = v
  | x :: t, v, hv => by
      rcases List.mem_cons.mp hv with rfl | hv
      · exact ⟨0, by simp, rfl⟩
      · obtain ⟨k, hk, he⟩ := exists_getD_of_mem d t v hv
        exact ⟨k + 1, by simpa using hk, he⟩

/-- Two lists of equal length that agree on every in-range `getD` are equal. -/
theorem list_eq_of_getD {α : Type} (d : α) (l1 l2 : List α)
    (hlen : l1.length = l2.length)
    (h : ∀ k, k < l1.length → l1.getD k d = l2.getD k d) : l1 = l2 := by
  apply List.ext_getElem hlen
  intro k h1 h2
  have hk := h k h1
  rwa [List.getD_eq_getElem?_getD, List.getD_eq_getElem?_getD,
    List.getElem?_eq_getElem h1, List.getElem?_eq_getElem h2] at hk

/-! ### Field-preservation facts for the mutating operations -/

@[simp] theorem RandomizePermutation_size (st : CPerlinNoise2D) :
    (RandomizePermutation st).m_nSize = st.m_nSize := rfl

@[simp] theorem RandomizePermutation_table (st : CPerlinNoise2D) :
    (RandomizePermutation st).m_fTable = st.m_fTable := rfl

@[simp] theorem RandomizePermutation_seed (st : CPerlinNoise2D) :
    (RandomizePermutation st).m_nSeed = st.m_nSeed := rfl

@[simp] theorem RandomizePermutation_mask (st : CPerlinNoise2D) :
    (RandomizePermutation st).m_nMask = st.m_nMask := rfl

@[simp] theorem RandomizePermutation_eHash (st : CPerlinNoise2D) :
    (RandomizePermutation st).m_eHash = st.m_eHash := rfl

@[simp] theorem RandomizePermutation_eSpline (st : CPerlinNoise2D) :
    (RandomizePermutation st).m_eSpline = st.m_eSpline := rfl

@[simp] theorem RandomizePermutation_eDistribution (st : CPerlinNoise2D) :
    (RandomizePermutation st).m_eDistribution = st.m_eDistribution := rfl

@[simp] theorem RandomizeTable_size (st : CPerlinNoise2D) (d : eDistribution) :
    (RandomizeTable st d).m_nSize = st.m_nSize := by cases d <;> rfl

@[simp] theorem RandomizeTable_seed (st : CPerlinNoise2D) (d : eDistribution) :
    (RandomizeTable st d).m_nSeed = st.m_nSeed := by cases d <;> rfl

@[simp] theorem RandomizeTable_mask (st : CPerlinNoise2D) (d : eDistribution) :
    (RandomizeTable st d).m_nMask = st.m_nMask := by cases d <;> rfl

@[simp] theorem RandomizeTable_eHash (st : CPerlinNoise2D) (d : eDistribution) :
    (RandomizeTable st d).m_eHash = st.m_eHash := by cases d <;> rfl

@[simp] theorem RandomizeTable_eSpline (st : CPerlinNoise2D) (d : eDistribution) :
    (RandomizeTable st d).m_eSpline = st.m_eSpline := by cases d <;> rfl

@[simp] theorem RandomizeTable_eDistribution (st : CPerlinNoise2D) (d : eDistribution) :
    (RandomizeTable st d).m_eDistribution = d := by cases d <;> rfl

@[simp] theorem RandomizeTable_perm (st : CPerlinNoise2D) (d : eDistribution) :
    (RandomizeTable st d).m_nPerm = st.m_nPerm := by cases d <;> rfl

@[simp] theorem InitTables_size (st : CPerlinNoise2D) :
    (InitTables st).m_nSize = st.m_nSize := by
  simp [InitTables]

/-! ### The Fisher-Yates shuffle produces a permutation (claim C5) -/

/-- Consing the element at position `m` onto the list with position `m`
overwritten by `x` is a permutation of consing `x` onto the original list. -/
theorem cons_getD_set_perm :
    ∀ (t : List ℕ) (m : ℕ) (x : ℕ), m < t.length →
      List.Perm (t.getD m 0 :: t.set m x) (x :: t)
  | [], m, x, h => by simp at h
  | y :: t, 0, x, _ => by
      simpa using List.Perm.swap x y t
  | y :: t, m + 1, x, h => by
      have hm : m < t.length := by simpa using h
      simp only [List.getD_cons_succ, List.set_cons_succ]
      have h1 : List.Perm (t.getD m 0 :: y :: t.set m x) (y :: t.getD m 0 :: t.set m x) :=
        List.Perm.swap _ _ _
      have h2 : List.Perm (y :: t.getD m 0 :: t.set m x) (y :: x :: t) :=
        List.Perm.cons y (cons_getD_set_perm t m x hm)
      have h3 : List.Perm (y :: x :: t) (x :: y :: t) := List.Perm.swap _ _ _
      exact (h1.trans h2).trans h3

/-- Swapping two in-range positions of a list permutes it. -/
theorem set_set_swap_perm :
    ∀ (l : List ℕ) (i j : ℕ), i < l.length → j < l.length →
      List.Perm ((l.set i (l.getD j 0)).set j (l.getD i 0)) l
  | [], i, _, hi, _ => by simp at hi
  | x :: t, 0, 0, _, _ => by
      simp only [List.getD_cons_zero, List.set_cons_zero]
      exact List.Perm.refl _
  | x :: t, 0, m + 1, _, hj => by
      have hm : m < t.length := by simpa using hj
      simp only [List.getD_cons_zero, List.getD_cons_succ, List.set_cons_zero,
        List.set_cons_succ]
      exact cons_getD_set_perm t m x hm
  | x :: t, k + 1, 0, hi, _ => by
      have hk : k < t.length := by simpa using hi
      simp only [List.getD_cons_zero, List.getD_cons_succ, List.set_cons_zero,
        List.set_cons_succ]
      exact cons_getD_set_perm t k x hk
  | x :: t, k + 1, m + 1, hi, hj => by
      have hk : k < t.length := by simpa using hi
      have hm : m < t.length := by simpa using hj
      simp only [List.getD_cons_succ, List.set_cons_succ]
      exact List.Perm.cons x (set_set_swap_perm t k m hk hm)

/-- `swapEntries` permutes the list. -/
theorem swapEntries_perm (l : List ℕ) (i j : ℕ) :
    List.Perm (swapEntries l i j) l := by
  unfold swapEntries
  split
  next h => exact set_set_swap_perm l i j h.1 h.2
  next => exact List.Perm.refl l

/-- Folding the Fisher-Yates step over any index list keeps the permutation
array a permutation of `range n`. -/
theorem fisher_foldl_perm (n : ℕ) :
    ∀ (idx : List ℕ) (p : List ℕ × ℕ), List.Perm p.1 (List.range n) →
      List.Perm (idx.foldl (fisherStep n) p).1 (List.range n)
  | [], _, h => h
  | i :: idx, p, h => by
      refine fisher_foldl_perm n idx (fisherStep n p i) ?_
      exact (swapEntries_perm p.1 i (uniformNat i (n - 1) p.2).1).trans h

/-- The permutation array after `RandomizePermutation` is a permutation of
`range m_nSize`. -/
theorem RandomizePermutation_perm (st : CPerlinNoise2D) :
    List.Perm (RandomizePermutation st).m_nPerm (List.range st.m_nSize) :=
  fisher_foldl_perm st.m_nSize (List.range st.m_nSize)
    (List.range st.m_nSize, prngSeed st.m_nSeed) (List.Perm.refl _)

/-- Claim C5: after every call to `RandomizePermutation()` on an engine whose
table size `n` is a power of two, the array `m_nPerm[0..n)` is a bijection on
`{0, …, n-1}`: it has length `n` and every value `v < n` appears exactly
once. -/
theorem claim5_permutation_bijective (st : CPerlinNoise2D)
    (_hpow : isPowerOf2 st.m_nSize = true) :
    (RandomizePermutation st).m_nPerm.length = st.m_nSize ∧
    ∀ v, v < st.m_nSize → (RandomizePermutation st).m_nPerm.count v = 1 := by
  have hp := RandomizePermutation_perm st
  refine ⟨by simpa using hp.length_eq, fun v hv => ?_⟩
  rw [hp.count_eq]
  exact List.count_eq_one_of_mem (List.nodup_range _) (List.mem_range.mpr hv)

/-- Witness for C5 at the concrete engine `E4`. -/
theorem claim5_witness : (RandomizePermutation E4).m_nPerm.count 3 = 1 :=
  (claim5_permutation_bijective E4 (by decide)).2 3 (by decide)

/-! ### Hash corner indices are in bounds (claim C6) -/

/-- Claim C6: for every pair of lattice coordinates, every hash selector, and
every engine state in which `m_nPerm` is a bijection on `{0, …, m_nSize-1}`
and `m_nMask = m_nSize - 1`, all four corner indices produced by
`HashCorners` lie in `[0, m_nSize)`, so subsequent table lookups are in
bounds. -/
theorem claim6_hashcorners_in_bounds (st : CPerlinNoise2D)
    (hmask : st.m_nMask = st.m_nSize - 1) (hsz : 0 < st.m_nSize)
    (hperm : List.Perm st.m_nPerm (List.range st.m_nSize)) (x y : ℕ) :
    ∀ c ∈ HashCorners st x y, c < st.m_nSize := by
  have hb : ∀ a : ℕ, a &&& st.m_nMask < st.m_nSize := by
    intro a
    have h1 : a &&& st.m_nMask ≤ st.m_nMask := Nat.and_le_right
    omega
  have hlen : st.m_nPerm.length = st.m_nSize := by simpa using hperm.length_eq
  have hhash : ∀ a : ℕ, hash st a < st.m_nSize := by
    intro a
    have hin : a &&& st.m_nMask < st.m_nPerm.length := by rw [hlen]; exact hb a
    have hmem : st.m_nPerm.getD (a &&& st.m_nMask) 0 ∈ st.m_nPerm :=
      getD_mem_of_lt 0 _ _ hin
    exact List.mem_range.mp (hperm.mem_iff.mp hmem)
  intro c hc
  unfold HashCorners at hc
  cases hh : st.m_eHash <;> rw [hh] at hc <;>
    simp only [List.mem_cons, List.not_mem_nil, or_false] at hc
  · rcases hc with rfl | rfl | rfl | rfl <;> exact hhash _
  · rcases hc with rfl | rfl | rfl | rfl <;> (simp only [hash2]; exact hb _)
  · rcases hc with rfl | rfl | rfl | rfl <;> (simp only [hashstd]; exact hb _)

/-- Witness for C6 at the concrete engine `E16C` and lattice point `(5, 7)`. -/
theorem claim6_witness : (HashCorners E16C 5 7).getD 0 0 < E16C.m_nSize :=
  claim6_hashcorners_in_bounds E16C rfl (by decide) (by decide) 5 7
    ((HashCorners E16C 5 7).getD 0 0) (by decide)

/-! ### Resize operations (claims C4 and C3) -/

/-- Claim C4: `DoubleTableSize()` returns `true` and doubles `m_nSize` exactly
when the current size is strictly below the maximum table size (1024), and
otherwise leaves the whole state unchanged and returns `false`; symmetrically
`HalveTableSize()` returns `true` and halves `m_nSize` exactly when the size
is strictly above the minimum table size (16), and otherwise leaves the state
unchanged and returns `false`.  Both are total functions: an out-of-bound
request is a no-op signalled by the boolean. -/
theorem claim4_resize_clamped_noop (st : CPerlinNoise2D) :
    (st.m_nSize < m_nMaxTableSize →
      (DoubleTableSize st).1 = true ∧
      (DoubleTableSize st).2.m_nSize = st.m_nSize * 2) ∧
    (¬ st.m_nSize < m_nMaxTableSize → DoubleTableSize st = (false, st)) ∧
    (m_nMinTableSize < st.m_nSize →
      (HalveTableSize st).1 = true ∧
      (HalveTableSize st).2.m_nSize = st.m_nSize / 2) ∧
    (¬ m_nMinTableSize < st.m_nSize → HalveTableSize st = (false, st)) := by
  refine ⟨fun h => ?_, fun h => ?_, fun h => ?_, fun h => ?_⟩
  · simp [DoubleTableSize, h]
  · simp [DoubleTableSize, h]
  · simp [HalveTableSize, h]
  · simp [HalveTableSize, h]

/-- Witness for C4: both operations exercised on both sides of their bounds
(`E256` in the interior, `E1024` at the maximum, `E16C` at the minimum). -/
theorem claim4_witness :
    ((DoubleTableSize E256).1 = true ∧
      (DoubleTableSize E256).2.m_nSize = E256.m_nSize * 2) ∧
    DoubleTableSize E1024 = (false, E1024) ∧
    ((HalveTableSize E256).1 = true ∧
      (HalveTableSize E256).2.m_nSize = E256.m_nSize / 2) ∧
    HalveTableSize E16C = (false, E16C) :=
  ⟨(claim4_resize_clamped_noop E256).1 (by decide),
   (claim4_resize_clamped_noop E1024).2.1 (by decide),
   (claim4_resize_clamped_noop E256).2.2.1 (by decide),
   (claim4_resize_clamped_noop E16C).2.2.2 (by decide)⟩

/-- Counterexample to claim C3 as stated: from the reachable engine state with
`m_nSize = 1024` (the maximum, reached from the default 256 by two doublings),
`DoubleTableSize()` is a no-op but `HalveTableSize()` still halves, so the
round trip ends at 512, not at the original 1024. -/
theorem claim3_roundtrip_counterexample :
    (HalveTableSize (DoubleTableSize E1024).2).2.m_nSize = 512 ∧
    E1024.m_nSize = 1024 ∧ (512 : ℕ) ≠ 1024 := by
  refine ⟨?_, rfl, by decide⟩
  have h1 : (DoubleTableSize E1024).2 = E1024 := by
    have h : ¬ E1024.m_nSize < m_nMaxTableSize := by decide
    simp [DoubleTableSize, h]
  rw [h1]
  have h2 : m_nMinTableSize < E1024.m_nSize := by decide
  simp [HalveTableSize, h2]
  decide

/-- Claim C3, amended: from every reachable engine state whose table size is
strictly below the maximum (1024), calling `DoubleTableSize()` and then
immediately `HalveTableSize()` leaves `m_nSize` at its original value; at
`m_nSize = 1024` the double is a no-op and the halve still fires, leaving
512. -/
theorem claim3_roundtrip_amended (st : CPerlinNoise2D)
    (hmin : m_nMinTableSize ≤ st.m_nSize) (hmax : st.m_nSize < m_nMaxTableSize) :
    (HalveTableSize (DoubleTableSize st).2).2.m_nSize = st.m_nSize := by
  have h1 : (DoubleTableSize st).2 = InitTables { st with m_nSize := st.m_nSize * 2 } := by
    simp [DoubleTableSize, hmax]
  rw [h1]
  have hc : (InitTables { st with m_nSize := st.m_nSize * 2 }).m_nSize > m_nMinTableSize := by
    simp only [InitTables_size]
    unfold m_nMinTableSize at hmin ⊢
    omega
  unfold HalveTableSize
  rw [if_pos hc]
  simp only [InitTables_size]
  omega

/-- Witness for the amended C3 at the default-size engine `E256`. -/
theorem claim3_witness :
    (HalveTableSize (DoubleTableSize E256).2).2.m_nSize = E256.m_nSize :=
  claim3_roundtrip_amended E256 (by decide) (by decide)

/-! ### `generate` with zero octaves (claim C2) and its range (claim C1) -/

/-- Claim C2 (code bug): for every state and every argument tuple with zero
octaves, the loop leaves `sum = 0` and `amplitude = 1`, so `generate`
computes the float division `0.0f/0.0f`, whose IEEE value is NaN (`none` in
the model) — not the value `0` the specification promises.  The debug
assertion `-1 ≤ result ≤ 1` also fails on NaN. -/
theorem claim2_zero_octaves_nan (st : CPerlinNoise2D) (x y : ℚ) (t : eNoise)
    (alpha beta : ℚ) : generate st x y t 0 alpha beta = none := by
  simp [generate, genLoop]

/-- Claim C1 (code bug): the engine state `E16C` satisfies every invariant the
specification places on engine data (permutation a bijection, mask
`size - 1`, table entries in `[-1, 1]` — indeed in `{-1, 1}`, exactly what
the `Maximal` filler produces), yet one octave of Perlin noise at
`(0.5, 0.5)` evaluates to exactly `1`, and the `4/3` rescale makes
`generate` return `4/3 ∉ [-1, 1]`, contradicting the own `\return` comment of the code
documentation and its assertion `-1 ≤ result ≤ 1`. -/
theorem claim1_generate_out_of_range :
    generate E16C (1/2) (1/2) eNoise.Perlin 1 (1/2) 2 = some (4/3) ∧
    ¬ ((4 : ℚ)/3 ≤ 1) := by
  constructor
  · norm_num [generate, genLoop, noise, Lerp, z, spline, HashCorners,
      CPerlinNoise2D.hash, pair, E16C, spline3, lerp, toSizeT, and_fifteen]
  · norm_num

/-! ### The midpoint-displacement entry assertions (claim C10) -/

/-- Every call recorded in the midpoint call tree started from arguments
`i < j < n` with positive `alpha` satisfies `i < j`, `j < n` and `0 < alpha`
(for any fuel). -/
theorem midpointCalls_sound (n : ℕ) :
    ∀ (fuel i j : ℕ) (alpha : ℚ), i < j → j < n → 0 < alpha →
      ∀ c ∈ midpointCalls fuel i j alpha, c.1 < c.2.1 ∧ c.2.1 < n ∧ 0 < c.2.2
  | 0, _, _, _, _, _, _ => by simp [midpointCalls]
  | fuel + 1, i, j, alpha, hij, hjn, ha => by
      intro c hc
      rw [midpointCalls] at hc
      rcases List.mem_cons.mp hc with rfl | hc
      · exact ⟨hij, hjn, ha⟩
      · have ha2 : 0 < alpha * (1/2) := by linarith
        by_cases hgt : j > i + 1
        · rw [if_pos hgt] at hc
          rcases List.mem_append.mp hc with hc | hc
          · exact midpointCalls_sound n fuel i ((i + j) / 2) (alpha * (1/2))
              (by omega) (by omega) ha2 c hc
          · exact midpointCalls_sound n fuel ((i + j) / 2) j (alpha * (1/2))
              (by omega) hjn ha2 c hc
        · rw [if_neg hgt] at hc
          simp at hc

/-- Counterexample to claim C10 as stated: with the default table size 256,
the public entry point starts the recursion with the call
`RandomizeTableMidpoint(0, 255, 0.5)`, and `0.5 < 0` is false — the entry
assertion `alpha < 0.0f` fails on the very first reached call. -/
theorem claim10_assert_counterexample :
    (0, 255, (1/2 : ℚ)) ∈ midpointCalls 256 0 255 (1/2) ∧ ¬ ((1/2 : ℚ) < 0) := by
  constructor
  · exact List.mem_cons_self _ _
  · norm_num

/-- Claim C10, amended: on every call of the recursive
`RandomizeTableMidpoint(i, j, alpha)` reached from the public entry point
(which starts the recursion at `(0, m_nSize - 1, 0.5)`), the assertions
`i < j` and `j < m_nSize` hold, and `alpha` is strictly positive — so the
third entry assertion, `alpha < 0.0f`, fails on every reached call. -/
theorem claim10_assert_amended (n : ℕ) (hn : 2 ≤ n) :
    ∀ c ∈ midpointCalls n 0 (n - 1) (1/2),
      c.1 < c.2.1 ∧ c.2.1 < n ∧ 0 < c.2.2 := fun c hc =>
  midpointCalls_sound n n 0 (n - 1) (1/2) (by omega) (by omega) (by norm_num) c hc

/-- Witness for the amended C10 at the default table size 256, on the
initial call `(0, 255, 0.5)`. -/
theorem claim10_assert_witness : (0 : ℕ) < 255 ∧ 255 < 256 ∧ (0 : ℚ) < 1/2 :=
  claim10_assert_amended 256 (by decide) (0, 255, 1/2) (List.mem_cons_self _ _)

/-! ### Ranges of the modelled distribution draws -/

/-- The PRNG state stays below the modulus. -/
theorem prngNext_lt (s : ℕ) : prngNext s < prngM :=
  Nat.mod_lt _ (by norm_num [prngM])

/-- A unit draw lies in `[0, 1)`. -/
theorem unitDraw_mem (s : ℕ) : 0 ≤ unitDraw s ∧ unitDraw s < 1 := by
  unfold unitDraw
  constructor
  · positivity
  · rw [div_lt_one (by norm_num [prngM])]
    exact_mod_cast prngNext_lt s

/-- A `uniform_real_distribution(a, b)` draw lies in `[a, b]`. -/
theorem uniformReal_mem (a b : ℚ) (hab : a ≤ b) (s : ℕ) :
    a ≤ (uniformReal a b s).1 ∧ (uniformReal a b s).1 ≤ b := by
  obtain ⟨h0, h1⟩ := unitDraw_mem s
  unfold uniformReal
  constructor
  · have : 0 ≤ (b - a) * unitDraw s := mul_nonneg (by linarith) h0
    simp only
    linarith
  · simp only
    nlinarith

/-- `clamp` lands in the clamping interval. -/
theorem clamp_mem (a x b : ℚ) (hab : a ≤ b) :
    a ≤ clamp a x b ∧ clamp a x b ≤ b := by
  unfold clamp
  exact ⟨le_max_left _ _, max_le hab (min_le_right _ _)⟩

/-- The modelled `cosf` lies in `[-1, 1]`. -/
theorem cosf_mem (x : ℚ) : -1 ≤ cosf x ∧ cosf x ≤ 1 :=
  clamp_mem (-1) _ 1 (by norm_num)

/-! ### The per-entry fillers -/

/-- `fillWith` produces exactly `n` entries. -/
theorem fillWith_length (f : ℕ → ℚ × ℕ) :
    ∀ (g n : ℕ), (fillWith f g n).1.length = n
  | _, 0 => rfl
  | g, n + 1 => by simp [fillWith, fillWith_length f (f g).2 n]

/-- Every `fillWith` entry satisfies any property satisfied by every draw. -/
theorem fillWith_mem (f : ℕ → ℚ × ℕ) (P : ℚ → Prop) (hf : ∀ s, P (f s).1) :
    ∀ (g n : ℕ), ∀ v ∈ (fillWith f g n).1, P v
  | g, 0 => by simp [fillWith]
  | g, n + 1 => by
      intro v hv
      simp only [fillWith] at hv
      rcases List.mem_cons.mp hv with rfl | hv
      · exact hf g
      · exact fillWith_mem f P hf (f g).2 n v hv

/-! ### The midpoint-displacement fill -/

/-- The midpoint fill preserves the table length. -/
theorem midFill_length :
    ∀ (fuel : ℕ) (t : List ℚ) (g i j : ℕ) (alpha : ℚ),
      (RandomizeTableMidpoint fuel t g i j alpha).1.length = t.length
  | 0, _, _, _, _, _ => rfl
  | fuel + 1, t, g, i, j, alpha => by
      by_cases h : j > i + 1
      · simp only [RandomizeTableMidpoint]
        rw [if_pos h, midFill_length fuel, midFill_length fuel, List.length_set]
      · simp only [RandomizeTableMidpoint]
        rw [if_neg h]

/-- The midpoint fill writes only strictly inside `(i, j)`: positions
`k ≤ i` and `k ≥ j` keep their old values. -/
theorem midFill_frame :
    ∀ (fuel : ℕ) (t : List ℚ) (g i j : ℕ) (alpha : ℚ) (k : ℕ), k ≤ i ∨ j ≤ k →
      (RandomizeTableMidpoint fuel t g i j alpha).1.getD k 0 = t.getD k 0
  | 0, _, _, _, _, _, _, _ => rfl
  | fuel + 1, t, g, i, j, alpha, k, hk => by
      by_cases h : j > i + 1
      · have hk1 : k ≤ i ∨ (i + j) / 2 ≤ k := by rcases hk with hk | hk <;> omega
        have hk2 : k ≤ (i + j) / 2 ∨ j ≤ k := by rcases hk with hk | hk <;> omega
        have hne : (i + j) / 2 ≠ k := by rcases hk with hk | hk <;> omega
        simp only [RandomizeTableMidpoint]
        rw [if_pos h, midFill_frame fuel _ _ _ _ _ k hk2,
          midFill_frame fuel _ _ _ _ _ k hk1, getD_set_ne _ _ _ _ _ hne]
      · simp only [RandomizeTableMidpoint]
        rw [if_neg h]

/-- Every interior position of a midpoint-filled range holds a value in
`[-1, 1]` (each such position is written by a `clamp`). -/
theorem midFill_range :
    ∀ (fuel : ℕ) (t : List ℚ) (g i j : ℕ) (alpha : ℚ) (k : ℕ),
      j - i ≤ fuel → i < k → k < j → j < t.length →
      -1 ≤ (RandomizeTableMidpoint fuel t g i j alpha).1.getD k 0 ∧
        (RandomizeTableMidpoint fuel t g i j alpha).1.getD k 0 ≤ 1
  | 0, _, _, i, j, _, k, hf, h1, h2, _ => by omega
  | fuel + 1, t, g, i, j, alpha, k, hf, h1, h2, hlen => by
      have h : j > i + 1 := by omega
      have hmid1 : i < (i + j) / 2 := by omega
      have hmid2 : (i + j) / 2 < j := by omega
      simp only [RandomizeTableMidpoint]
      rw [if_pos h]
      rcases lt_trichotomy k ((i + j) / 2) with hk | hk | hk
      · rw [midFill_frame fuel _ _ _ _ _ k (Or.inl (le_of_lt hk))]
        refine midFill_range fuel _ _ i ((i + j) / 2) _ k (by omega) h1 hk ?_
        rw [List.length_set]
        omega
      · subst hk
        rw [midFill_frame fuel _ _ _ _ _ _ (Or.inl (le_refl _)),
          midFill_frame fuel _ _ _ _ _ _ (Or.inr (le_refl _)),
          getD_set_self _ _ _ _ (by omega)]
        exact clamp_mem (-1) _ 1 (by norm_num)
      · refine midFill_range fuel _ _ ((i + j) / 2) j _ k (by omega) hk h2 ?_
        rw [midFill_length, List.length_set]
        omega

/-- The midpoint fill depends on the old table only through the two
endpoint entries: two tables of equal length agreeing at `i` and `j` yield
the same PRNG state and the same entries everywhere in `[i, j]`. -/
theorem midFill_agree :
    ∀ (fuel : ℕ) (t1 t2 : List ℚ) (g i j : ℕ) (alpha : ℚ),
      j - i ≤ fuel → t1.length = t2.length → j < t1.length →
      t1.getD i 0 = t2.getD i 0 → t1.getD j 0 = t2.getD j 0 →
      (RandomizeTableMidpoint fuel t1 g i j alpha).2 =
        (RandomizeTableMidpoint fuel t2 g i j alpha).2 ∧
      ∀ k, i ≤ k → k ≤ j →
        (RandomizeTableMidpoint fuel t1 g i j alpha).1.getD k 0 =
          (RandomizeTableMidpoint fuel t2 g i j alpha).1.getD k 0
  | 0, t1, t2, g, i, j, alpha, hf, _, _, hi0, _ => by
      refine ⟨rfl, fun k hik hkj => ?_⟩
      have hk : k = i := by omega
      rw [hk]
      exact hi0
  | fuel + 1, t1, t2, g, i, j, alpha, hf, hlen, hj, hi0, hj0 => by
      by_cases h : j > i + 1
      case neg =>
        simp only [RandomizeTableMidpoint]
        rw [if_neg h, if_neg h]
        refine ⟨rfl, fun k hik hkj => ?_⟩
        rcases Nat.eq_or_lt_of_le hik with hk | hk
        · rw [← hk]
          exact hi0
        · have hk2 : k = j := by omega
          rw [hk2]
          exact hj0
      case pos =>
        have hmid1 : i < (i + j) / 2 := by omega
        have hmid2 : (i + j) / 2 < j := by omega
        simp only [RandomizeTableMidpoint]
        rw [if_pos h, if_pos h, hi0, hj0]
        set mid := (i + j) / 2 with hm
        set V := clamp (-1)
          ((t2.getD i 0 + t2.getD j 0) / 2 + alpha * (uniformReal (-1) 1 g).1) 1 with hV
        set gd := (uniformReal (-1) 1 g).2 with hgd
        have hset_len : (t1.set mid V).length = (t2.set mid V).length := by
          simp [hlen]
        have hmlt1 : mid < (t1.set mid V).length := by
          rw [List.length_set]
          omega
        have hiset : (t1.set mid V).getD i 0 = (t2.set mid V).getD i 0 := by
          rw [getD_set_ne _ _ _ _ _ (by omega), getD_set_ne _ _ _ _ _ (by omega)]
          exact hi0
        have hmset : (t1.set mid V).getD mid 0 = (t2.set mid V).getD mid 0 := by
          rw [getD_set_self _ _ _ _ (by omega), getD_set_self _ _ _ _ (by omega)]
        obtain ⟨hg1, hp1⟩ := midFill_agree fuel (t1.set mid V) (t2.set mid V) gd
          i mid (alpha * (1/2)) (by omega) hset_len hmlt1 hiset hmset
        rw [← hg1]
        have hlen2 :
            (RandomizeTableMidpoint fuel (t1.set mid V) gd i mid (alpha * (1/2))).1.length =
            (RandomizeTableMidpoint fuel (t2.set mid V) gd i mid (alpha * (1/2))).1.length := by
          rw [midFill_length, midFill_length]
          exact hset_len
        have hj2 :
            j < (RandomizeTableMidpoint fuel (t1.set mid V) gd i mid (alpha * (1/2))).1.length := by
          rw [midFill_length, List.length_set]
          omega
        have hi2 :
            (RandomizeTableMidpoint fuel (t1.set mid V) gd i mid (alpha * (1/2))).1.getD mid 0 =
            (RandomizeTableMidpoint fuel (t2.set mid V) gd i mid (alpha * (1/2))).1.getD mid 0 :=
          hp1 mid (by omega) (le_refl _)
        have hj2e :
            (RandomizeTableMidpoint fuel (t1.set mid V) gd i mid (alpha * (1/2))).1.getD j 0 =
            (RandomizeTableMidpoint fuel (t2.set mid V) gd i mid (alpha * (1/2))).1.getD j 0 := by
          rw [midFill_frame fuel _ _ _ _ _ j (Or.inr (le_of_lt hmid2)),
            midFill_frame fuel _ _ _ _ _ j (Or.inr (le_of_lt hmid2)),
            getD_set_ne _ _ _ _ _ (by omega), getD_set_ne _ _ _ _ _ (by omega)]
          exact hj0
        obtain ⟨hg2, hp2⟩ := midFill_agree fuel
          (RandomizeTableMidpoint fuel (t1.set mid V) gd i mid (alpha * (1/2))).1
          (RandomizeTableMidpoint fuel (t2.set mid V) gd i mid (alpha * (1/2))).1
          (RandomizeTableMidpoint fuel (t1.set mid V) gd i mid (alpha * (1/2))).2
          mid j (alpha * (1/2)) (by omega) hlen2 hj2 hi2 hj2e
        refine ⟨hg2, fun k hik hkj => ?_⟩
        by_cases hkm : k ≤ mid
        · rw [midFill_frame fuel _ _ _ _ _ k (Or.inl hkm),
            midFill_frame fuel _ _ _ _ _ k (Or.inl hkm)]
          exact hp1 k hik hkm
        · exact hp2 k (by omega) hkj

/-- Claim C8: after `RandomizeTable(d)` for every distribution `d`, on a state
whose table has length `m_nSize ≥ 2` (every reachable state has a power-of-two
size of at least 16), the resulting table still has length `m_nSize`, every
entry lies in `[-1, 1]`, and every entry has been overwritten: the resulting
table is the same whatever the previous table contents were. -/
theorem claim8_table_range_overwrite (st : CPerlinNoise2D) (d : eDistribution)
    (hlen : st.m_fTable.length = st.m_nSize) (hsz : 2 ≤ st.m_nSize) :
    (RandomizeTable st d).m_fTable.length = st.m_nSize ∧
    (∀ v ∈ (RandomizeTable st d).m_fTable, -1 ≤ v ∧ v ≤ 1) ∧
    ∀ tb : List ℚ, tb.length = st.m_nSize →
      (RandomizeTable { st with m_fTable := tb } d).m_fTable =
        (RandomizeTable st d).m_fTable := by
  cases d
  case Uniform =>
    exact ⟨fillWith_length _ _ _,
      fillWith_mem _ _ (fun s => uniformReal_mem (-1) 1 (by norm_num) s) _ _,
      fun tb htb => rfl⟩
  case Maximal =>
    refine ⟨fillWith_length _ _ _, fillWith_mem _ _ (fun s => ?_) _ _, fun tb htb => rfl⟩
    show -1 ≤ (if (uniformReal (-1) 1 s).1 > 0 then (1 : ℚ) else -1) ∧
      (if (uniformReal (-1) 1 s).1 > 0 then (1 : ℚ) else -1) ≤ 1
    split <;> norm_num
  case Cosine =>
    exact ⟨fillWith_length _ _ _, fillWith_mem _ _ (fun s => cosf_mem _) _ _,
      fun tb htb => rfl⟩
  case Normal =>
    refine ⟨fillWith_length _ _ _, fillWith_mem _ _ (fun s => ?_) _ _, fun tb htb => rfl⟩
    show -1 ≤ 2 * clamp 0 ((normalDraw s).1 / 1000) 1 - 1 ∧
      2 * clamp 0 ((normalDraw s).1 / 1000) 1 - 1 ≤ 1
    have h := clamp_mem 0 ((normalDraw s).1 / 1000) 1 (by norm_num)
    exact ⟨by linarith [h.1], by linarith [h.2]⟩
  case Exponential =>
    have hE : (RandomizeTable st eDistribution.Exponential).m_fTable =
        (fillWith (fun s =>
            let d := expDraw s
            (clamp 0 d.1 1, d.2)) (prngSeed st.m_nSeed) (st.m_nSize / 2)).1 ++
        (fillWith (fun s =>
            let d := expDraw s
            (-clamp 0 d.1 1, d.2))
          (fillWith (fun s =>
            let d := expDraw s
            (clamp 0 d.1 1, d.2)) (prngSeed st.m_nSeed) (st.m_nSize / 2)).2
          (st.m_nSize - st.m_nSize / 2)).1 := rfl
    refine ⟨?_, ?_, fun tb htb => rfl⟩
    · rw [hE, List.length_append, fillWith_length, fillWith_length]
      omega
    · intro v hv
      rw [hE] at hv
      rcases List.mem_append.mp hv with hv | hv
      · have := fillWith_mem (fun s =>
            let d := expDraw s
            (clamp 0 d.1 1, d.2)) (fun w => 0 ≤ w ∧ w ≤ 1)
          (fun s => clamp_mem 0 (expDraw s).1 1 (by norm_num)) _ _ v hv
        exact ⟨by linarith [this.1], this.2⟩
      · have := fillWith_mem (fun s =>
            let d := expDraw s
            (-clamp 0 d.1 1, d.2)) (fun w => -1 ≤ w ∧ w ≤ 0)
          (fun s => by
            have h := clamp_mem 0 (expDraw s).1 1 (by norm_num)
            show -1 ≤ -clamp 0 (expDraw s).1 1 ∧ -clamp 0 (expDraw s).1 1 ≤ 0
            exact ⟨by linarith [h.2], by linarith [h.1]⟩) _ _ v hv
        exact ⟨this.1, by linarith [this.2]⟩
  case Midpoint =>
    have hT : (RandomizeTable st eDistribution.Midpoint).m_fTable =
        (RandomizeTableMidpoint st.m_nSize
          ((st.m_fTable.set 0 1).set (st.m_nSize - 1) (-1))
          (prngSeed st.m_nSeed) 0 (st.m_nSize - 1) (1/2)).1 := rfl
    have hlen0 : ((st.m_fTable.set 0 1).set (st.m_nSize - 1) (-1)).length = st.m_nSize := by
      simp [hlen]
    have he0 : ((st.m_fTable.set 0 1).set (st.m_nSize - 1) (-1)).getD 0 0 = 1 := by
      rw [getD_set_ne _ _ _ _ _ (by omega), getD_set_self _ _ _ _ (by omega)]
    have he1 : ((st.m_fTable.set 0 1).set (st.m_nSize - 1) (-1)).getD (st.m_nSize - 1) 0
        = -1 :=
      getD_set_self _ _ _ _ (by rw [List.length_set]; omega)
    refine ⟨?_, ?_, ?_⟩
    · rw [hT, midFill_length]
      exact hlen0
    · intro v hv
      rw [hT] at hv
      obtain ⟨k, hk, he⟩ := exists_getD_of_mem 0 _ v hv
      rw [midFill_length, hlen0] at hk
      rw [← he]
      rcases Nat.eq_zero_or_pos k with hk0 | hk0
      · subst hk0
        rw [midFill_frame _ _ _ _ _ _ _ (Or.inl (le_refl 0)), he0]
        norm_num
      by_cases hk1 : k = st.m_nSize - 1
      · subst hk1
        rw [midFill_frame _ _ _ _ _ _ _ (Or.inr (le_refl _)), he1]
        norm_num
      · exact midFill_range st.m_nSize _ (prngSeed st.m_nSeed) 0 (st.m_nSize - 1)
          (1/2) k (by omega) (by omega) (by omega) (by omega)
    · intro tb htb
      have hT2 : (RandomizeTable { st with m_fTable := tb } eDistribution.Midpoint).m_fTable =
          (RandomizeTableMidpoint st.m_nSize ((tb.set 0 1).set (st.m_nSize - 1) (-1))
            (prngSeed st.m_nSeed) 0 (st.m_nSize - 1) (1/2)).1 := rfl
      have hlen0b : ((tb.set 0 1).set (st.m_nSize - 1) (-1)).length = st.m_nSize := by
        simp [htb]
      have he0b : ((tb.set 0 1).set (st.m_nSize - 1) (-1)).getD 0 0 = 1 := by
        rw [getD_set_ne _ _ _ _ _ (by omega), getD_set_self _ _ _ _ (by omega)]
      have he1b : ((tb.set 0 1).set (st.m_nSize - 1) (-1)).getD (st.m_nSize - 1) 0 = -1 :=
        getD_set_self _ _ _ _ (by rw [List.length_set]; omega)
      rw [hT, hT2]
      obtain ⟨hg, hp⟩ := midFill_agree st.m_nSize
        ((tb.set 0 1).set (st.m_nSize - 1) (-1))
        ((st.m_fTable.set 0 1).set (st.m_nSize - 1) (-1))
        (prngSeed st.m_nSeed) 0 (st.m_nSize - 1) (1/2)
        (by omega) (by rw [hlen0b, hlen0]) (by omega)
        (by rw [he0b, he0]) (by rw [he1b, he1])
      refine list_eq_of_getD 0 _ _ ?_ ?_
      · rw [midFill_length, midFill_length, hlen0b, hlen0]
      · intro k hk
        rw [midFill_length, hlen0b] at hk
        exact hp k (Nat.zero_le k) (by omega)

/-- Witness for C8 at the concrete engine `E16C` with the midpoint
distribution. -/
theorem claim8_witness :
    (RandomizeTable E16C eDistribution.Midpoint).m_fTable.length = E16C.m_nSize :=
  (claim8_table_range_overwrite E16C eDistribution.Midpoint (by decide) (by decide)).1

/-! ### Determinism (claim C7) -/

/-- `RandomizePermutation` output fields depend only on the seed and size. -/
theorem RandomizePermutation_congr (a b : CPerlinNoise2D)
    (hseed : a.m_nSeed = b.m_nSeed) (hsz : a.m_nSize = b.m_nSize) :
    (RandomizePermutation a).m_nPerm = (RandomizePermutation b).m_nPerm ∧
    (RandomizePermutation a).m_stdRandom = (RandomizePermutation b).m_stdRandom := by
  unfold RandomizePermutation
  rw [hseed, hsz]
  exact ⟨rfl, rfl⟩

/-- The table produced by `RandomizeTable` and the final PRNG state depend
only on the seed, the size and the distribution; for `Midpoint` the two
endpoint writes hide the old endpoint values, so the old table never shows
through. -/
theorem RandomizeTable_congr (a b : CPerlinNoise2D) (d : eDistribution)
    (hseed : a.m_nSeed = b.m_nSeed) (hsz : a.m_nSize = b.m_nSize)
    (hl1 : a.m_fTable.length = a.m_nSize) (hl2 : b.m_fTable.length = b.m_nSize)
    (h2 : 2 ≤ a.m_nSize) :
    (RandomizeTable a d).m_fTable = (RandomizeTable b d).m_fTable ∧
    (RandomizeTable a d).m_stdRandom = (RandomizeTable b d).m_stdRandom := by
  cases d
  case Uniform =>
    simp only [RandomizeTable]
    rw [hseed, hsz]
    exact ⟨rfl, rfl⟩
  case Maximal =>
    simp only [RandomizeTable]
    rw [hseed, hsz]
    exact ⟨rfl, rfl⟩
  case Cosine =>
    simp only [RandomizeTable]
    rw [hseed, hsz]
    exact ⟨rfl, rfl⟩
  case Normal =>
    simp only [RandomizeTable]
    rw [hseed, hsz]
    exact ⟨rfl, rfl⟩
  case Exponential =>
    simp only [RandomizeTable]
    rw [hseed, hsz]
    exact ⟨rfl, rfl⟩
  case Midpoint =>
    have hTa : (RandomizeTable a eDistribution.Midpoint).m_fTable =
        (RandomizeTableMidpoint a.m_nSize ((a.m_fTable.set 0 1).set (a.m_nSize - 1) (-1))
          (prngSeed a.m_nSeed) 0 (a.m_nSize - 1) (1/2)).1 := rfl
    have hGa : (RandomizeTable a eDistribution.Midpoint).m_stdRandom =
        (RandomizeTableMidpoint a.m_nSize ((a.m_fTable.set 0 1).set (a.m_nSize - 1) (-1))
          (prngSeed a.m_nSeed) 0 (a.m_nSize - 1) (1/2)).2 := rfl
    have hTb : (RandomizeTable b eDistribution.Midpoint).m_fTable =
        (RandomizeTableMidpoint a.m_nSize ((b.m_fTable.set 0 1).set (a.m_nSize - 1) (-1))
          (prngSeed a.m_nSeed) 0 (a.m_nSize - 1) (1/2)).1 := by
      rw [hseed, hsz]
      rfl
    have hGb : (RandomizeTable b eDistribution.Midpoint).m_stdRandom =
        (RandomizeTableMidpoint a.m_nSize ((b.m_fTable.set 0 1).set (a.m_nSize - 1) (-1))
          (prngSeed a.m_nSeed) 0 (a.m_nSize - 1) (1/2)).2 := by
      rw [hseed, hsz]
      rfl
    have he0a : ((a.m_fTable.set 0 1).set (a.m_nSize - 1) (-1)).getD 0 0 = 1 := by
      rw [getD_set_ne _ _ _ _ _ (by omega), getD_set_self _ _ _ _ (by omega)]
    have he0b : ((b.m_fTable.set 0 1).set (a.m_nSize - 1) (-1)).getD 0 0 = 1 := by
      rw [getD_set_ne _ _ _ _ _ (by omega), getD_set_self _ _ _ _ (by omega)]
    have he1a : ((a.m_fTable.set 0 1).set (a.m_nSize - 1) (-1)).getD (a.m_nSize - 1) 0
        = -1 := getD_set_self _ _ _ _ (by rw [List.length_set]; omega)
    have he1b : ((b.m_fTable.set 0 1).set (a.m_nSize - 1) (-1)).getD (a.m_nSize - 1) 0
        = -1 := getD_set_self _ _ _ _ (by rw [List.length_set]; omega)
    obtain ⟨hg, hp⟩ := midFill_agree a.m_nSize
      ((a.m_fTable.set 0 1).set (a.m_nSize - 1) (-1))
      ((b.m_fTable.set 0 1).set (a.m_nSize - 1) (-1))
      (prngSeed a.m_nSeed) 0 (a.m_nSize - 1) (1/2)
      (by omega)
      (by rw [List.length_set, List.length_set, List.length_set, List.length_set]; omega)
      (by rw [List.length_set, List.length_set]; omega)
      (by rw [he0a, he0b]) (by rw [he1a, he1b])
    constructor
    · rw [hTa, hTb]
      refine list_eq_of_getD 0 _ _ ?_ ?_
      · rw [midFill_length, midFill_length]
        simp only [List.length_set]
        omega
      · intro k hk
        rw [midFill_length, List.length_set, List.length_set] at hk
        exact hp k (Nat.zero_le k) (by omega)
    · rw [hGa, hGb]
      exact hg

/-- Claim C7: two engines with the same table size, seed, distribution, hash
and spline selectors (and the reachable-state invariants: mask `size - 1`,
table length `size`, size at least 16) hold identical `m_fTable` and
`m_nPerm` after `RandomizeTable` and `RandomizePermutation`, and
consequently `generate` returns the same value on both engines for every
argument tuple. -/
theorem claim7_determinism (st1 st2 : CPerlinNoise2D)
    (hsz : st1.m_nSize = st2.m_nSize) (hseed : st1.m_nSeed = st2.m_nSeed)
    (hhash : st1.m_eHash = st2.m_eHash) (hsp : st1.m_eSpline = st2.m_eSpline)
    (hdist : st1.m_eDistribution = st2.m_eDistribution)
    (hm1 : st1.m_nMask = st1.m_nSize - 1) (hm2 : st2.m_nMask = st2.m_nSize - 1)
    (hl1 : st1.m_fTable.length = st1.m_nSize) (hl2 : st2.m_fTable.length = st2.m_nSize)
    (h2sz : 2 ≤ st1.m_nSize) :
    (RandomizePermutation (RandomizeTable st1 st1.m_eDistribution)).m_fTable =
      (RandomizePermutation (RandomizeTable st2 st2.m_eDistribution)).m_fTable ∧
    (RandomizePermutation (RandomizeTable st1 st1.m_eDistribution)).m_nPerm =
      (RandomizePermutation (RandomizeTable st2 st2.m_eDistribution)).m_nPerm ∧
    ∀ (x y : ℚ) (t : eNoise) (n : ℕ) (alpha beta : ℚ),
      generate (RandomizePermutation (RandomizeTable st1 st1.m_eDistribution))
          x y t n alpha beta =
        generate (RandomizePermutation (RandomizeTable st2 st2.m_eDistribution))
          x y t n alpha beta := by
  rw [← hdist]
  have hT := RandomizeTable_congr st1 st2 st1.m_eDistribution hseed hsz hl1 hl2 h2sz
  have hP := RandomizePermutation_congr (RandomizeTable st1 st1.m_eDistribution)
    (RandomizeTable st2 st1.m_eDistribution) (by simp [hseed]) (by simp [hsz])
  have hstate : RandomizePermutation (RandomizeTable st1 st1.m_eDistribution) =
      RandomizePermutation (RandomizeTable st2 st1.m_eDistribution) := by
    apply CPerlinNoise2D.ext
    · simp [hhash]
    · simp [hsp]
    · simp
    · exact hP.1
    · simpa using hT.1
    · exact hP.2
    · simp [hseed]
    · simp [hsz]
    · simp [hm1, hm2, hsz]
  rw [hstate]
  exact ⟨rfl, rfl, fun _ _ _ _ _ _ => rfl⟩

/-- Witness for C7: the engines `E4` and `E4b` share size, seed and
selectors but differ in table contents, permutation and PRNG state;
after reseeding both produce the same `generate` output. -/
theorem claim7_witness :
    generate (RandomizePermutation (RandomizeTable E4 E4.m_eDistribution))
        0 0 eNoise.Value 1 (1/2) 2 =
      generate (RandomizePermutation (RandomizeTable E4b E4b.m_eDistribution))
        0 0 eNoise.Value 1 (1/2) 2 :=
  (claim7_determinism E4 E4b rfl rfl rfl rfl rfl (by decide) (by decide)
    (by decide) (by decide) (by decide)).2.2 0 0 eNoise.Value 1 (1/2) 2

/-! ### Read-only sampling (claim C9) -/

/-- Claim C9: a call of `generate` — and of its helpers `noise`,
`HashCorners`, `hash`, `hash2`, `hashstd`, `pair`, `pairstd`, `spline`, `z`
and `Lerp` — mutates no engine state.  The C++ member functions are
`const`-qualified and assign no data member; in the state-passing embedding
each method returns the engine unchanged, so every field (`m_nPerm`,
`m_fTable`, `m_nSize`, `m_nMask`, `m_nSeed`, `m_stdRandom` and the three
selectors) equals its value before the call. -/
theorem claim9_generate_pure (st : CPerlinNoise2D) (x y sX fX fY : ℚ)
    (t : eNoise) (n : ℕ) (alpha beta : ℚ) (h c0 c1 : ℕ) :
    (generateM st x y t n alpha beta).2 = st ∧
    (noiseM st x y t).2 = st ∧
    (HashCornersM st c0 c1).2 = st ∧
    (hashM st h).2 = st ∧
    (hash2M st c0 c1).2 = st ∧
    (hashstdM st h).2 = st ∧
    (pairM st c0 c1).2 = st ∧
    (pairstdM st c0 c1).2 = st ∧
    (splineM st x).2 = st ∧
    (zM st h fX fY t).2 = st ∧
    (LerpM st sX fX fY c0 c1 t).2 = st :=
  ⟨rfl, rfl, rfl, rfl, rfl, rfl, rfl, rfl, rfl, rfl, rfl⟩

end SmoothNoise
